import Mathlib

/-!
Shallow embedding of `datamanager` (datamanager.py, save_daemon.py) and the
container layer it uses, with theorems checking the natural-language
specification against the code.

Conventions:
* Python scalar values that can live inside the managed collections are
  modelled by `PyVal` (integers and strings, the two kinds the spec's
  numericization rule distinguishes).
* Python `set` objects are modelled as duplicate-free lists (`setAdd` keeps
  first insertion), `dict` objects as insertion-ordered association lists
  (`dictSet` overwrites in place), matching CPython's observable semantics.
* Entry names (including the session id) are lists of characters so that
  `str.replace` can be modelled exactly (`replaceAll`).
* I/O effects (`smart_save` failures) are supplied as oracles; a save routine
  returns the trace of calls it made, and `Option Nat` carries a propagated
  exception where the source lets one escape.
-/

/-- A Python scalar stored in the managed collections: an int or a str. -/
inductive PyVal where
  | vInt (n : Int)
  | vStr (s : String)
deriving DecidableEq, Repr

open PyVal

/-- All-digit parse accumulator: models the digit loop of Python `int(str)`.
Returns `none` as soon as a non-digit character is seen. -/
def digitsNatAux : List Char → Nat → Option Nat
  | [], acc => some acc
  | c :: t, acc => if c.isDigit then digitsNatAux t (acc * 10 + (c.toNat - 48)) else none

/-- Models Python `int(s)` on strings: optional surrounding spaces, an optional
sign, then at least one digit.  (Python also strips other whitespace and allows
digit-group underscores; those inputs do not occur in this development.) -/
def pyIntOfStr (s : String) : Option Int :=
  let cs := s.toList.dropWhile (· == ' ')
  let cs := (cs.reverse.dropWhile (· == ' ')).reverse
  match cs with
  | [] => none
  | '-' :: rest =>
      if rest = [] then none else (digitsNatAux rest 0).map (fun n => -(n : Int))
  | '+' :: rest =>
      if rest = [] then none else (digitsNatAux rest 0).map (fun n => (n : Int))
  | cs => (digitsNatAux cs 0).map (fun n => (n : Int))

/-- `int(i)` applied to one element inside `_numericize`'s try/except:
ints stay ints, strings become ints exactly when Python `int` accepts them. -/
def numericizeVal : PyVal → PyVal
  | vInt n => vInt n
  | vStr s => match pyIntOfStr s with
    | some n => vInt n
    | none => vStr s

/-- `_numericize` (datamanager.py:15): builds a new list, converting every
element that parses as an integer and keeping the rest unchanged. -/
def _numericize (l : List PyVal) : List PyVal := l.map numericizeVal

/-- `x` is a string that Python `int` accepts (the representations
numericization is meant to erase). -/
def isIntStr : PyVal → Bool
  | vStr s => (pyIntOfStr s).isSome
  | vInt _ => false

/-- `x` is a Python string — the only values `**`-expansion accepts as
keyword names. -/
def isStrKey : PyVal → Bool
  | vStr _ => true
  | vInt _ => false

/-! ### Python collection primitives -/

/-- Adding one element to a Python `set`, modelled as a duplicate-free list. -/
def setAdd (l : List PyVal) (x : PyVal) : List PyVal :=
  if x ∈ l then l else l ++ [x]

/-- `set.update(xs)`: add every element of `xs`. -/
def setUpdate (l : List PyVal) (xs : List PyVal) : List PyVal :=
  xs.foldl setAdd l

/-- `set(xs)`: collect the distinct elements of an iterable. -/
def setOfList (xs : List PyVal) : List PyVal := setUpdate [] xs

/-- `d[k] = v` on an insertion-ordered dict: overwrite in place or append. -/
def dictSet : List (PyVal × PyVal) → PyVal → PyVal → List (PyVal × PyVal)
  | [], k, v => [(k, v)]
  | (k0, v0) :: t, k, v =>
      if k0 = k then (k, v) :: t else (k0, v0) :: dictSet t k v

/-- `dict.update(xs)`: assign key by key, later assignments overriding. -/
def dictUpdate (d : List (PyVal × PyVal)) (xs : List (PyVal × PyVal)) :
    List (PyVal × PyVal) :=
  xs.foldl (fun d kv => dictSet d kv.1 kv.2) d

/-! ### Entry names and `str.replace` -/

/-- Entry names (and the session id) as character lists. -/
abbrev Name := List Char

/-- Generic insertion-ordered association update (Python dict assignment),
used for the manager's own `name -> value` mapping. -/
def alSet {β : Type} : List (Name × β) → Name → β → List (Name × β)
  | [], k, v => [(k, v)]
  | (k0, v0) :: t, k, v =>
      if k0 = k then (k, v) :: t else (k0, v0) :: alSet t k v

/-- Association lookup. -/
def alGet {β : Type} (l : List (Name × β)) (k : Name) : Option β :=
  match l with
  | [] => none
  | (k0, v0) :: t => if k0 = k then some v0 else alGet t k

/-- `pat` is an initial run of `s` (Python `s.startswith(pat)`). -/
def leadsWith : List Char → List Char → Bool
  | [], _ => true
  | _ :: _, [] => false
  | a :: as, b :: bs => a = b && leadsWith as bs

/-- `pat` occurs somewhere inside `s` (Python `pat in s`). -/
def containsSub (s pat : List Char) : Bool :=
  match s with
  | [] => leadsWith pat []
  | c :: t => leadsWith pat (c :: t) || containsSub t pat

/-- Left-to-right scan of `str.replace(pat, '')`: on a match, skip the matched
run and continue after it; otherwise keep one character and move on.  The
`fuel` argument only makes the recursion structural; any `fuel ≥ s.length`
gives the same result. -/
def replaceGoF (pat : List Char) : Nat → List Char → List Char
  | _, [] => []
  | 0, c :: t => c :: t
  | fuel + 1, c :: t =>
      if leadsWith pat (c :: t) then replaceGoF pat fuel (t.drop (pat.length - 1))
      else c :: replaceGoF pat fuel t

/-- Python `s.replace(pat, '')` (all occurrences, scanning left to right,
non-overlapping).  Replacing an empty pattern by '' returns `s` unchanged,
as in Python. -/
def replaceAll (s pat : List Char) : List Char :=
  if pat = [] then s else replaceGoF pat s.length s

/-! ### Rendering the session id (`str(randint(100000, 999999))`) -/

/-- The character of one decimal digit. -/
def digitChr (d : Nat) : Char := Char.ofNat (48 + d)

/-- Decimal digits of `n`, least significant first; `fuel` bounds the number
of digits (structural recursion), adequate whenever `n < 10 ^ fuel`. -/
def natDigitsRevF : Nat → Nat → List Char
  | 0, _ => []
  | fuel + 1, n =>
      if n < 10 then [digitChr n] else digitChr (n % 10) :: natDigitsRevF fuel (n / 10)

/-- Python `str(n)` for the six-digit session ids (fuel 7 covers n < 10^7). -/
def natToName (n : Nat) : Name := (natDigitsRevF 7 n).reverse

example : natToName 100000 = ['1', '0', '0', '0', '0', '0'] := by decide

example : _numericize [vStr "1", vInt 2, vStr "3", vStr "a"]
    = [vInt 1, vInt 2, vInt 3, vStr "a"] := by decide

example : replaceAll ("121212".toList) ("212".toList) = "112".toList := by decide

example : replaceAll ("x100000100000".toList) ("100000".toList) = "x".toList := by
  decide

/-! ### Disk-backed containers

`datamanager/cachetypes.py` is not part of the sources available here; the
container layer is therefore modelled from the spec (section 4.2), and the
`diskcache` collections (`Deque`, `Index`) are external collaborators whose
in-memory face is a plain sequence / mapping.  Only the logical contents
matter to the claims; the on-disk path handed to each constructor is a
filesystem detail and is not modelled. -/

/-- Modelled from the spec: `datamanager.cachetypes.EvictingIndex` (not under
src/), the bounded map-shaped Disk-Backed Container.  `entries` is kept in
recency order, most recently used first; `put` re-inserts at the front and,
when a capacity is configured and would be exceeded, drops the
least-recently-used entry from the back before the new entry is admitted —
eviction is a side effect of `put`, never a separate call. -/
structure EvictingIndex where
  cap : Option Nat
  entries : List (PyVal × PyVal)
deriving DecidableEq, Repr

namespace EvictingIndex

/-- A fresh bounded index with capacity `n`. -/
def emptyWithCap (n : Nat) : EvictingIndex := ⟨some n, []⟩

/-- Insert (or refresh) one key: move it to the most-recent slot and truncate
to the capacity, evicting the least-recently-used entry if needed. -/
def put (m : EvictingIndex) (k v : PyVal) : EvictingIndex :=
  let es := (k, v) :: m.entries.filter (fun p => p.1 ≠ k)
  ⟨m.cap, match m.cap with
    | none => es
    | some c => es.take c⟩

/-- `EvictingIndex(path, **pairs)`: seed an unbounded index from keyword
pairs, inserted left to right. -/
def ofPairs (ps : List (PyVal × PyVal)) : EvictingIndex :=
  ps.foldl (fun m kv => m.put kv.1 kv.2) ⟨none, []⟩

/-- The keys currently present. -/
def keys (m : EvictingIndex) : List PyVal := m.entries.map (·.1)

/-- Number of entries (`len`). -/
def size (m : EvictingIndex) : Nat := m.entries.length

end EvictingIndex

/-- A raw Python collection as passed to `register_file` / `register_cache`
(`initial_data`) or returned by `smart_load`. -/
inductive RawColl where
  | rSet (l : List PyVal)
  | rList (l : List PyVal)
  | rDict (d : List (PyVal × PyVal))
deriving DecidableEq, Repr

open RawColl

/-- Iterating a collection: a dict yields its keys (Python iteration order). -/
def elemsOf : RawColl → List PyVal
  | rSet l => l
  | rList l => l
  | rDict d => d.map (·.1)

/-- The key/value pairs of a mapping (`**collection`); empty otherwise. -/
def pairsOf : RawColl → List (PyVal × PyVal)
  | rDict d => d
  | _ => []

/-- Python truthiness of a collection: nonempty. -/
def truthyRaw (c : RawColl) : Bool := !(elemsOf c).isEmpty

/-- Is the collection a `dict`? (`isinstance(x, dict)`). -/
def isDict : RawColl → Bool
  | rDict _ => true
  | _ => false

/-- A value stored in the manager's mapping: an in-memory collection
(registered via `register` / `register_file`) or a Disk-Backed Container
(created by `register_cache`).  `cacheSet` models `CacheSet` (cachetypes,
modelled from the spec as a set-like container), `deque` models
`diskcache.Deque`, `evIndex` models `EvictingIndex`. -/
inductive Value where
  | pySet (l : List PyVal)
  | pyList (l : List PyVal)
  | pyDict (d : List (PyVal × PyVal))
  | cacheSet (l : List PyVal)
  | deque (l : List PyVal)
  | evIndex (m : EvictingIndex)
deriving DecidableEq, Repr

open Value

/-- The in-memory value corresponding to a raw collection handed to
`register`; set and dict literals are normalized the way Python's own
constructors keep them (no duplicate members / keys). -/
def toValue : RawColl → Value
  | rSet l => pySet (setOfList l)
  | rList l => pyList l
  | rDict d => pyDict (dictUpdate [] d)

/-- Python truthiness of a stored value (`if not value`): nonempty. -/
def truthyValue : Value → Bool
  | pySet l => !l.isEmpty
  | pyList l => !l.isEmpty
  | pyDict d => !d.isEmpty
  | cacheSet l => !l.isEmpty
  | deque l => !l.isEmpty
  | evIndex m => !m.entries.isEmpty

/-- The element list of a set- or sequence-shaped stored value (used to state
the duplicate-representation properties); empty for map-shaped values. -/
def elemsOfValue : Value → List PyVal
  | pySet l => l
  | pyList l => l
  | cacheSet l => l
  | deque l => l
  | _ => []

/-- Format-specific options passed through to the File Binding Layer
(`save_kwargs` / `load_kwargs` dictionaries); their content is opaque here. -/
abbrev Kwargs := List (String × String)

/-- The state of a `DataManager` (datamanager.py:32).  The Python class keeps
the flag lists at class level; they are modelled per instance, which is
equivalent for every single-instance claim checked here.  `filemanager` is
the set of logical names registered with the external `FileManager`. -/
structure DataManager where
  data : List (Name × Value) := []
  session_id : Name := []
  do_not_display : List Name := []
  do_not_save : List Name := []
  do_not_append_session_id : List Name := []
  save_kwargs : List (Name × Kwargs) := []
  load_kwargs : List (Name × Kwargs) := []
  filemanager : List Name := []
deriving DecidableEq, Repr

/-- `DataManager.__init__` (datamanager.py:41): a fresh manager whose session
id is `str(randint(100000, 999999))`; the random draw is modelled by a seed
mapped onto exactly the same range.  (The save daemon it spawns is modelled
separately, see `SDState`.) -/
def mkDataManager (seed : Nat) : DataManager :=
  { session_id := natToName (100000 + seed % 900000) }

namespace DataManager

/-- `register` (datamanager.py:48). -/
def register (st : DataManager) (name : Name) (dat : Value)
    (display : Bool) (append_session_id : Bool) : DataManager :=
  let p : Name × DataManager :=
    if append_session_id then (name ++ st.session_id, st)
    else (name, { st with do_not_append_session_id :=
                    st.do_not_append_session_id ++ [name ++ st.session_id] })
  let name' := p.1
  let st1 := p.2
  let st2 :=
    if display then st1
    else { st1 with do_not_display := st1.do_not_display ++ [name'] }
  { st2 with data := alSet st2.data name' dat }

/-- `get` (datamanager.py:187): look up `name + session_id`, stripping every
occurrence of the session id again when the key was registered unsuffixed;
fall back to `optional` when absent. -/
def get (st : DataManager) (k : Name) (optional : Option Value) : Option Value :=
  let k1 := k ++ st.session_id
  let k2 := if k1 ∈ st.do_not_append_session_id then replaceAll k1 st.session_id else k1
  match alGet st.data k2 with
  | some v => some v
  | none => optional

/-- `load` (datamanager.py:175): numericize loaded data unless it is a dict,
then merge into the registered entry by shape — set union, list extend, dict
key-by-key update.  Returns `none` where Python raises (`dict.update` on
loaded scalars, or an entry whose stored shape does not match `data`, which
no caller in the source produces). -/
def load (st : DataManager) (data : RawColl) (loaded_data : RawColl)
    (name : Name) : Option DataManager :=
  let loaded' : RawColl :=
    if isDict loaded_data then loaded_data
    else rList (_numericize (elemsOf loaded_data))
  match data, alGet st.data name with
  | rSet _, some (pySet l) =>
      some { st with data := alSet st.data name (pySet (setUpdate l (elemsOf loaded'))) }
  | rList _, some (pyList l) =>
      some { st with data := alSet st.data name (pyList (l ++ elemsOf loaded')) }
  | rDict _, some (pyDict d) =>
      match loaded' with
      | rDict ld => some { st with data := alSet st.data name (pyDict (dictUpdate d ld)) }
      | _ => none
  | _, _ => none

/-- The flag/options bookkeeping shared by `register_file` (datamanager.py:69-78)
and `register_cache` (datamanager.py:135-139): record no-display / no-save
flags and per-name codec options. -/
def applyFlags (st : DataManager) (name : Name) (display save : Bool)
    (save_kw load_kw : Option Kwargs) : DataManager :=
  let st := if display then st
    else { st with do_not_display := st.do_not_display ++ [name] }
  let st := if save then st
    else { st with do_not_save := st.do_not_save ++ [name] }
  let st := match save_kw with
    | some kw => { st with save_kwargs := alSet st.save_kwargs name kw }
    | none => st
  match load_kw with
  | some kw => { st with load_kwargs := alSet st.load_kwargs name kw }
  | none => st

/-- `register_file` (datamanager.py:58): record flags and codec options,
register the file binding, load the file when asked and it exists, register
the initial value unsuffixed, then reconcile truthy loaded data into it.
`fileExists` and `smartLoad` are the File Binding Layer oracles. -/
def register_file (st : DataManager) (name : Name) (initial_data : RawColl)
    (display load save : Bool) (save_kw load_kw : Option Kwargs)
    (fileExists : Name → Bool) (smartLoad : Name → RawColl) :
    Option DataManager :=
  let st1 := applyFlags st name display save save_kw load_kw
  let st2 := { st1 with filemanager := st1.filemanager ++ [name] }
  if load && fileExists name then
    let ld := smartLoad name
    let st3 := st2.register name (toValue initial_data) display false
    if truthyRaw ld then st3.load initial_data ld name else some st3
  else some (st2.register name (toValue initial_data) display false)

/-- `_create_cache` (datamanager.py:159): choose the container shape from
`initial_data`'s type and seed it from `loaded_data or <empty>`; only the set
branch numericizes.  (The cache directory path built from the name is a
filesystem detail.)  The dict branch is
`EvictingIndex(path, **(loaded_data or {}))`: keyword-expanding a truthy
value raises TypeError in Python when it is not a mapping, and also when it
is a mapping with non-string keys — both raising paths are `none` here. -/
def _create_cache (st : DataManager) (initial_data : RawColl)
    (loaded_data : Option RawColl) (name : Name) : Option DataManager :=
  match initial_data with
  | rSet _ =>
      let ld : List PyVal :=
        match loaded_data with
        | some l => if truthyRaw l then _numericize (elemsOf l) else []
        | none => []
      some { st with data := alSet st.data name (cacheSet (setOfList ld)) }
  | rList _ =>
      let ld : List PyVal :=
        match loaded_data with
        | some l => if truthyRaw l then elemsOf l else []
        | none => []
      some { st with data := alSet st.data name (deque ld) }
  | rDict _ =>
      match loaded_data with
      | some l =>
          if truthyRaw l then
            match l with
            | rDict d =>
                if d.all (fun kv => isStrKey kv.1) then
                  some { st with
                    data := alSet st.data name (evIndex (EvictingIndex.ofPairs d)) }
                else none
            | _ => none
          else
            some { st with data := alSet st.data name (evIndex (EvictingIndex.ofPairs [])) }
      | none =>
          some { st with data := alSet st.data name (evIndex (EvictingIndex.ofPairs [])) }

/-- `register_cache` (datamanager.py:95): suffix the name (or record it as
unsuffixed), record flags and codec options; when a file path is given,
register the binding and load the file when asked and it exists — otherwise
fall back to `initial_data` as the loaded data; with no path, no loaded data
at all.  Finally build the container via `_create_cache`, whose map-shaped
TypeError paths propagate out of `register_cache` (hence the `Option`).
(The `directory` argument only shapes the on-disk path and is not
modelled.) -/
def register_cache (st : DataManager) (name : Name) (initial_data : RawColl)
    (path_to_file : Option Name) (display load save : Bool)
    (save_kw load_kw : Option Kwargs) (append_session_id : Bool)
    (fileExists : Name → Bool) (smartLoad : Name → RawColl) :
    Option DataManager :=
  let name' := if append_session_id then name ++ st.session_id else name
  let st0 :=
    if append_session_id then st
    else { st with do_not_append_session_id :=
            st.do_not_append_session_id ++ [name ++ st.session_id] }
  let st1 := applyFlags st0 name' display save save_kw load_kw
  match path_to_file with
  | some _ =>
      let st2 := { st1 with filemanager := st1.filemanager ++ [name'] }
      if load && fileExists name' then
        st2._create_cache initial_data (some (smartLoad name')) name'
      else
        st2._create_cache initial_data (some initial_data) name'
  | none => st1._create_cache initial_data none name'

/-- `clean` (datamanager.py:236): for every file-bound container entry, clear
its contents (the `rmtree` of its backing directory is a filesystem effect). -/
def clean (st : DataManager) : DataManager :=
  { st with data := st.data.map (fun e =>
      if e.1 ∈ st.filemanager then
        match e.2 with
        | cacheSet _ => (e.1, cacheSet [])
        | deque _ => (e.1, deque [])
        | evIndex m => (e.1, evIndex ⟨m.cap, []⟩)
        | v => (e.1, v)
      else e) }

end DataManager

/-! ### The save routines as event traces

`smart_save` belongs to the external File Binding Layer; a run of `save` /
`save_caches` is modelled as the ordered trace of `smart_save` calls it makes.
`saveFails` is the I/O oracle: `some e` means the `smart_save` call for that
name raises exception `e`. -/

/-- One `smart_save` call made by `save` (datamanager.py:208), or the log
record of its caught failure. -/
inductive SaveEvent where
  | saved (n : Name) (v : Value) (kw : Kwargs)
  | logged (n : Name) (e : Nat)
deriving DecidableEq, Repr

/-- The payload handed to `smart_save` by `save_caches`: `list(value)` for
set/sequence containers, `dict(value)` for map containers. -/
inductive SnapPayload where
  | asList (l : List PyVal)
  | asDict (d : List (PyVal × PyVal))
deriving DecidableEq, Repr

/-- One `smart_save` call made by `save_caches` (datamanager.py:223): the
explicit `mode` argument is `some "w+"` on the set/sequence branch and absent
(library default) on the map branch. -/
structure CSEvent where
  n : Name
  payload : SnapPayload
  mode : Option String
  kw : Kwargs
deriving DecidableEq, Repr

namespace DataManager

/-- Is this entry saved by `save`?  (datamanager.py:211-215: bound to a file,
not flagged no-save, and truthy.) -/
def saveEligible (st : DataManager) (e : Name × Value) : Bool :=
  decide (e.1 ∈ st.filemanager) && !decide (e.1 ∈ st.do_not_save) && truthyValue e.2

/-- `save` (datamanager.py:208): walk the entries in order; skip entries with
no file binding, flagged no-save, or empty; `smart_save` each remaining one
with its registered save options, logging (never propagating) a failure. -/
def save (st : DataManager) (saveFails : Name → Option Nat) : List SaveEvent :=
  st.data.filterMap (fun e =>
    if saveEligible st e then
      match saveFails e.1 with
      | none => some (.saved e.1 e.2 ((alGet st.save_kwargs e.1).getD []))
      | some exc => some (.logged e.1 exc)
    else none)

/-- Is this entry traversed by `save_caches`?  (datamanager.py:227: bound to a
file and not flagged no-save; the container check is on the value itself.) -/
def cacheEligible (st : DataManager) (e : Name × Value) : Bool :=
  decide (e.1 ∈ st.filemanager) && !decide (e.1 ∈ st.do_not_save)

/-- The `smart_save` call `save_caches` makes for one container entry:
`none` for in-memory values (both isinstance checks fail). -/
def cacheFlushOf (st : DataManager) (e : Name × Value) : Option CSEvent :=
  let kw := (alGet st.save_kwargs e.1).getD []
  match e.2 with
  | Value.cacheSet l => some ⟨e.1, .asList l, some "w+", kw⟩
  | Value.deque l => some ⟨e.1, .asList l, some "w+", kw⟩
  | Value.evIndex m => some ⟨e.1, .asDict m.entries, none, kw⟩
  | _ => none

/-- Traversal core of `save_caches`: emit the flush of each eligible container
entry in order; a failing `smart_save` raises, so the trace stops there and
the exception is the second component (there is no try/except in
`save_caches`, unlike `save`). -/
def save_caches_go (st : DataManager) (saveFails : Name → Option Nat) :
    List (Name × Value) → List CSEvent × Option Nat
  | [] => ([], none)
  | e :: rest =>
      if cacheEligible st e then
        match cacheFlushOf st e with
        | some ev =>
            match saveFails e.1 with
            | some exc => ([], some exc)
            | none =>
                let r := save_caches_go st saveFails rest
                (ev :: r.1, r.2)
        | none => save_caches_go st saveFails rest
      else save_caches_go st saveFails rest

/-- `save_caches` (datamanager.py:223). -/
def save_caches (st : DataManager) (saveFails : Name → Option Nat) :
    List CSEvent × Option Nat :=
  save_caches_go st saveFails st.data

end DataManager

/-! ### The persistence daemon (save_daemon.py)

`SaveDaemon.run` is a loop `while self.go: <call each func, catching>; sleep`.
It is modelled as a small-step machine driven by an adversarial schedule of
actions: `daemonStep` advances the loop by one step, `stopSignal` is
`DataManager.stop_daemon` (datamanager.py:254) clearing `go` at an arbitrary
point.  One `exec` pass over the `nfuncs` callbacks is a "round"; a round is
completed by the step that enters `sleeping`. -/

/-- Where the daemon loop is: about to test `self.go`, executing callback `i`,
sleeping between rounds, or exited. -/
inductive Phase where
  | check
  | exec (i : Nat)
  | sleeping
  | halted
deriving DecidableEq, Repr

/-- Daemon state: the `go` flag, the loop position, and the number of
registered callbacks (`len(self.funcs)`). -/
structure SDState where
  go : Bool
  phase : Phase
  nfuncs : Nat
deriving DecidableEq, Repr

/-- One scheduling action. -/
inductive SDAct where
  | daemonStep
  | stopSignal
deriving DecidableEq, Repr

/-- One step of `SaveDaemon.run` (save_daemon.py:15): the `go` flag is tested
only at the top of the loop; a started round runs all callbacks (each failure
is caught inside the loop body), then the daemon sleeps and re-tests. -/
def daemon_step (s : SDState) : SDState :=
  match s.phase with
  | .check =>
      if s.go then
        if s.nfuncs = 0 then { s with phase := .sleeping }
        else { s with phase := .exec 0 }
      else { s with phase := .halted }
  | .exec i =>
      if i + 1 < s.nfuncs then { s with phase := .exec (i + 1) }
      else { s with phase := .sleeping }
  | .sleeping => { s with phase := .check }
  | .halted => s

/-- Apply one action: a daemon step, or `stop_daemon` clearing `go`. -/
def sd_step (s : SDState) : SDAct → SDState
  | .daemonStep => daemon_step s
  | .stopSignal => { s with go := false }

/-- Run a schedule of actions. -/
def sd_run (s : SDState) : List SDAct → SDState
  | [] => s
  | a :: rest => sd_run (sd_step s a) rest

/-- How many rounds of callbacks complete along a schedule: a round completes
when a daemon step enters the `sleeping` phase. -/
def roundsCompleted (s : SDState) : List SDAct → Nat
  | [] => 0
  | a :: rest =>
      (if a = SDAct.daemonStep ∧ (sd_step s a).phase = Phase.sleeping then 1 else 0)
        + roundsCompleted (sd_step s a) rest

/-- Bound on the rounds that can still complete from a state: one while a
round is executing, zero otherwise. -/
def sdPotential (s : SDState) : Nat :=
  match s.phase with
  | Phase.exec _ => 1
  | _ => 0

/-! ### Spec-side definitions

These follow the wording of the (amended) claims, to be compared with the
functions embedded from the source. -/

/-- A truthy string-keyed mapping — the only truthy collections Python's
`**`-expansion accepts when seeding the map-shaped container. -/
def isStrKeyedDict : RawColl → Bool
  | RawColl.rDict d => d.all (fun kv => isStrKey kv.1)
  | _ => false

/-- The container-seeding rule of the amended C1 claim: with a file path and a
successful load the loaded data seeds the container (numericized for the set
shape); with a path but no load (file absent or `load=False`) the initial
value seeds it (again numericized for the set shape); with no path the
container starts empty whatever the initial value is.  Seeding a map-shaped
container raises (`none`) when the truthy seed data is not a string-keyed
mapping, because the construction keyword-expands it. -/
def cacheSeedValue (initial : RawColl) (pathGiven loadOk : Bool)
    (loaded : RawColl) : Option Value :=
  if pathGiven then
    let src := if loadOk then loaded else initial
    match initial with
    | RawColl.rSet _ => some (Value.cacheSet (setOfList (_numericize (elemsOf src))))
    | RawColl.rList _ => some (Value.deque (elemsOf src))
    | RawColl.rDict _ =>
        if truthyRaw src && !(isStrKeyedDict src) then none
        else some (Value.evIndex (EvictingIndex.ofPairs (pairsOf src)))
  else
    match initial with
    | RawColl.rSet _ => some (Value.cacheSet [])
    | RawColl.rList _ => some (Value.deque [])
    | RawColl.rDict _ => some (Value.evIndex (EvictingIndex.ofPairs []))

/-- The value `_create_cache` stores for the entry (the container constructed
from `loaded_data or <empty>`, set shape numericized; `none` on the
map-shaped TypeError paths). -/
def cacheCreated (initial : RawColl) (loaded : Option RawColl) : Option Value :=
  match initial with
  | RawColl.rSet _ => some (Value.cacheSet (setOfList (match loaded with
      | some l => if truthyRaw l then _numericize (elemsOf l) else []
      | none => [])))
  | RawColl.rList _ => some (Value.deque (match loaded with
      | some l => if truthyRaw l then elemsOf l else []
      | none => []))
  | RawColl.rDict _ =>
      match loaded with
      | some l =>
          if truthyRaw l then
            match l with
            | RawColl.rDict d =>
                if d.all (fun kv => isStrKey kv.1) then
                  some (Value.evIndex (EvictingIndex.ofPairs d))
                else none
            | _ => none
          else some (Value.evIndex (EvictingIndex.ofPairs []))
      | none => some (Value.evIndex (EvictingIndex.ofPairs []))

/-- The reconciliation rule of the amended C4 claim: non-mapping loaded data
is numericized elementwise (mapping data is not), then merged into the entry
by shape — set union, sequence append, mapping key-by-key update with loaded
keys overriding; `none` where the source raises (mapping entry fed non-mapping
loaded data). -/
def reconcileSpec (initial loaded : RawColl) : Option Value :=
  let le : List PyVal :=
    if isDict loaded then elemsOf loaded else _numericize (elemsOf loaded)
  match initial with
  | RawColl.rSet l => some (Value.pySet (setUpdate (setOfList l) le))
  | RawColl.rList l => some (Value.pyList (l ++ le))
  | RawColl.rDict d =>
      if isDict loaded then some (Value.pyDict (dictUpdate (dictUpdate [] d) (pairsOf loaded)))
      else none

/-- What the registered entry holds after `register_file` obtained `loaded`
from the disk: reconciled when it is truthy, the untouched initial value
otherwise. -/
def mergedEntrySpec (initial loaded : RawColl) : Option Value :=
  if truthyRaw loaded then reconcileSpec initial loaded else some (toValue initial)

/-- The flush trace of the amended C2 claim: the flushes that come before the
first failing `smart_save`, together with that first propagated exception. -/
def firstFailing (orc : Name → Option Nat) : List CSEvent → List CSEvent × Option Nat
  | [] => ([], none)
  | e :: rest =>
      match orc e.n with
      | some exc => ([], some exc)
      | none =>
          let r := firstFailing orc rest
          (e :: r.1, r.2)

/-- The full flush list of one `save_caches` pass: one `smart_save` per
persist-eligible Disk-Backed Container entry, in traversal order. -/
def DataManager.cacheEvents (st : DataManager) : List CSEvent :=
  st.data.filterMap (fun e =>
    if st.cacheEligible e then st.cacheFlushOf e else none)

/-- Decimal value of a digit character. -/
def chrVal (c : Char) : Nat := c.toNat - 48

/-- Decode a least-significant-first digit list (left inverse of
`natDigitsRevF`). -/
def digitsVal : List Char → Nat
  | [] => 0
  | c :: t => chrVal c + 10 * digitsVal t

/-! ### Helper lemmas -/

theorem alGet_alSet_self {β : Type} (l : List (Name × β)) (k : Name) (v : β) :
    alGet (alSet l k v) k = some v := by
  induction l with
  | nil => simp [alSet, alGet]
  | cons e t ih =>
      obtain ⟨k0, v0⟩ := e
      by_cases h : k0 = k
      · simp [alSet, h, alGet]
      · simp [alSet, h, alGet, ih]

theorem setAdd_mem (l : List PyVal) (y x : PyVal) :
    x ∈ setAdd l y ↔ x ∈ l ∨ x = y := by
  by_cases h : y ∈ l
  · simp only [setAdd, if_pos h]
    constructor
    · exact fun hx => Or.inl hx
    · rintro (hx | rfl) <;> [exact hx; exact h]
  · simp [setAdd, if_neg h]

theorem setUpdate_mem (xs : List PyVal) (l : List PyVal) (x : PyVal) :
    x ∈ setUpdate l xs ↔ x ∈ l ∨ x ∈ xs := by
  induction xs generalizing l with
  | nil => simp [setUpdate]
  | cons y ys ih =>
      have h1 : setUpdate l (y :: ys) = setUpdate (setAdd l y) ys := rfl
      rw [h1, ih, setAdd_mem]
      simp only [List.mem_cons]
      tauto

theorem setOfList_mem (xs : List PyVal) (x : PyVal) :
    x ∈ setOfList xs ↔ x ∈ xs := by
  rw [setOfList, setUpdate_mem]
  simp

theorem numericize_not_intStr (l : List PyVal) (x : PyVal)
    (hx : x ∈ _numericize l) : isIntStr x = false := by
  rw [_numericize, List.mem_map] at hx
  obtain ⟨y, -, rfl⟩ := hx
  cases y with
  | vInt n => rfl
  | vStr s =>
      rw [numericizeVal]
      cases h : pyIntOfStr s with
      | none => simp [isIntStr, h]
      | some n => rfl

theorem truthyRaw_false_elems (c : RawColl) (h : truthyRaw c = false) :
    elemsOf c = [] := by
  cases c <;> simp_all [truthyRaw, elemsOf]

theorem truthyRaw_false_pairs (c : RawColl) (h : truthyRaw c = false) :
    pairsOf c = [] := by
  cases c <;> simp_all [truthyRaw, elemsOf, pairsOf]

theorem cacheFlushOf_name (st : DataManager) (e : Name × Value) (ev : CSEvent)
    (h : st.cacheFlushOf e = some ev) : ev.n = e.1 := by
  cases e with
  | mk n v => cases v <;> simp [DataManager.cacheFlushOf] at h <;> simp [← h]

theorem save_caches_go_eq (st : DataManager) (orc : Name → Option Nat)
    (l : List (Name × Value)) :
    DataManager.save_caches_go st orc l
      = firstFailing orc (l.filterMap (fun e =>
          if st.cacheEligible e then st.cacheFlushOf e else none)) := by
  induction l with
  | nil => rfl
  | cons e rest ih =>
      by_cases hel : st.cacheEligible e
      · cases hfl : st.cacheFlushOf e with
        | none =>
            simp [DataManager.save_caches_go, hel, hfl, List.filterMap_cons, ih]
        | some ev =>
            have hn : ev.n = e.1 := cacheFlushOf_name st e ev hfl
            cases hf : orc e.1 with
            | some exc =>
                simp [DataManager.save_caches_go, hel, hfl, hf,
                  List.filterMap_cons, firstFailing, hn]
            | none =>
                simp [DataManager.save_caches_go, hel, hfl, hf,
                  List.filterMap_cons, firstFailing, hn, ih]
      · simp [DataManager.save_caches_go, hel, List.filterMap_cons, ih]

/-- C2: the claim fails on the code.  Two persist-eligible container entries;
the `smart_save` of the first raises: `save_caches` then saves nothing else
and lets the exception escape (there is no try/except in `save_caches`),
while the claim promises the second entry is still saved and nothing
propagates. -/
theorem c2_counterexample :
    (DataManager.save_caches
        { data := [(['a'], Value.cacheSet [PyVal.vInt 1]),
                   (['b'], Value.cacheSet [PyVal.vInt 2])],
          filemanager := [['a'], ['b']] }
        (fun n => if n = ['a'] then some 7 else none)
      = ([], some 7))
    ∧ DataManager.cacheEligible
        { data := [(['a'], Value.cacheSet [PyVal.vInt 1]),
                   (['b'], Value.cacheSet [PyVal.vInt 2])],
          filemanager := [['a'], ['b']] }
        (['b'], Value.cacheSet [PyVal.vInt 2]) = true := by
  constructor <;> decide

/-- C2 (amended): a `smart_save` failure while saving one container entry in
`save_caches` aborts the traversal — only the flushes before the first
failing eligible entry happen, and the first failure propagates out of
`save_caches` (it is caught one level up, in the daemon loop), contrary to
the per-entry isolation `save` provides. -/
theorem c2_save_caches_abort (st : DataManager) (orc : Name → Option Nat) :
    st.save_caches orc = firstFailing orc st.cacheEvents := by
  rw [DataManager.save_caches, DataManager.cacheEvents, save_caches_go_eq]

/-- C3: confirmed.  `save` walks every entry; exactly the persist-eligible
ones (file-bound, not flagged no-save, truthy) produce a `smart_save` call
with the registered save options; a failing call produces a log record
instead and the traversal continues — the trace below is independent of
which entries fail, and `save` is total, so no failure propagates. -/
theorem c3_save_failure_isolation (st : DataManager) (orc : Name → Option Nat) :
    st.save orc = (st.data.filter st.saveEligible).map (fun e =>
      match orc e.1 with
      | none => SaveEvent.saved e.1 e.2 ((alGet st.save_kwargs e.1).getD [])
      | some exc => SaveEvent.logged e.1 exc) := by
  rw [DataManager.save]
  induction st.data with
  | nil => rfl
  | cons e rest ih =>
      by_cases hel : st.saveEligible e
      · cases hf : orc e.1 <;>
          simp [List.filterMap_cons, List.filter_cons, hel, hf, ih]
      · simp [List.filterMap_cons, List.filter_cons, hel, ih]

theorem firstFailing_none (evs : List CSEvent) :
    firstFailing (fun _ => none) evs = (evs, none) := by
  induction evs with
  | nil => rfl
  | cons e rest ih => simp [firstFailing, ih]

theorem filterMap_if_filter {α β : Type} (p : α → Bool) (f : α → Option β)
    (l : List α) :
    l.filterMap (fun e => if p e then f e else none)
      = (l.filter p).filterMap f := by
  induction l with
  | nil => rfl
  | cons e rest ih =>
      by_cases hp : p e
      · cases hf : f e <;> simp [List.filterMap_cons, List.filter_cons, hp, hf, ih]
      · simp [List.filterMap_cons, List.filter_cons, hp, ih]

/-- C8: the claim fails on the code in one point.  The map-container branch of
`save_caches` passes no `mode` argument at all (only the set/sequence branch
passes the explicit overwrite mode "w+"), so "each flush opens the target
file for overwrite" is not what the code requests: the map flush below
carries no mode and is left to the File Binding Layer's default. -/
theorem c8_counterexample :
    ¬ (∀ ev ∈ (DataManager.save_caches
        { data := [(['m'], Value.evIndex
            (EvictingIndex.ofPairs [(PyVal.vInt 1, PyVal.vInt 2)]))],
          filemanager := [['m']] }
        (fun _ => none)).1, ev.mode = some "w+")
    ∧ (DataManager.save_caches
        { data := [(['m'], Value.evIndex
            (EvictingIndex.ofPairs [(PyVal.vInt 1, PyVal.vInt 2)]))],
          filemanager := [['m']] }
        (fun _ => none)).1 ≠ [] := by
  constructor <;> decide

/-- C8 (amended): a failure-free `save_caches` pass flushes exactly the
persist-eligible Disk-Backed Container entries (in-memory entries are
skipped); each set/sequence container is serialized as its ordered element
list with the explicit overwrite mode "w+", and each map container as a
plain mapping snapshot with no explicit mode (the binding layer's default) —
no flush requests an append mode. -/
theorem c8_save_caches_snapshots (st : DataManager) :
    st.save_caches (fun _ => none) = (st.cacheEvents, none)
    ∧ st.cacheEvents = (st.data.filter st.cacheEligible).filterMap st.cacheFlushOf
    ∧ ∀ ev ∈ st.cacheEvents,
        (∃ l, ev.payload = SnapPayload.asList l ∧ ev.mode = some "w+")
        ∨ (∃ d, ev.payload = SnapPayload.asDict d ∧ ev.mode = none) := by
  refine ⟨?_, ?_, ?_⟩
  · rw [DataManager.save_caches, save_caches_go_eq, ← DataManager.cacheEvents,
      firstFailing_none]
  · rw [DataManager.cacheEvents, filterMap_if_filter]
  · intro ev hev
    rw [DataManager.cacheEvents, List.mem_filterMap] at hev
    obtain ⟨e, -, he⟩ := hev
    by_cases hel : st.cacheEligible e
    · rw [if_pos hel] at he
      cases e with
      | mk n v =>
          cases v <;> simp [DataManager.cacheFlushOf] at he <;>
            simp [← he]
    · rw [if_neg hel] at he
      exact absurd he (by simp)

/-- C8 witness: a concrete set-container state, with the theorem applied to
one concrete flush event of its pass. -/
theorem c8_witness :
    (DataManager.save_caches
        { data := [(['c'], Value.cacheSet [PyVal.vInt 3])],
          filemanager := [['c']] } (fun _ => none)
      = (DataManager.cacheEvents
          { data := [(['c'], Value.cacheSet [PyVal.vInt 3])],
            filemanager := [['c']] }, none))
    ∧ ((∃ l, (CSEvent.mk ['c'] (SnapPayload.asList [PyVal.vInt 3]) (some "w+") []).payload
          = SnapPayload.asList l
        ∧ (CSEvent.mk ['c'] (SnapPayload.asList [PyVal.vInt 3]) (some "w+") []).mode
          = some "w+")
      ∨ (∃ d, (CSEvent.mk ['c'] (SnapPayload.asList [PyVal.vInt 3]) (some "w+") []).payload
          = SnapPayload.asDict d
        ∧ (CSEvent.mk ['c'] (SnapPayload.asList [PyVal.vInt 3]) (some "w+") []).mode
          = none)) :=
  ⟨(c8_save_caches_snapshots _).1,
   (c8_save_caches_snapshots
      { data := [(['c'], Value.cacheSet [PyVal.vInt 3])],
        filemanager := [['c']] }).2.2
     (CSEvent.mk ['c'] (SnapPayload.asList [PyVal.vInt 3]) (some "w+") [])
     (by decide)⟩

theorem take_cons_take {α : Type} (c : Nat) (a : α) (l : List α) :
    (a :: l.take c).take c = (a :: l).take c := by
  cases c with
  | zero => simp
  | succ c' =>
      simp only [List.take_succ_cons, List.take_take]
      rw [min_eq_left (Nat.le_succ c')]

theorem evIndex_foldl (keys : List PyVal) (c : Nat) (v : PyVal)
    (hnd : keys.Nodup) :
    keys.foldl (fun m k => m.put k v) (EvictingIndex.mk (some c) [])
      = EvictingIndex.mk (some c) ((keys.reverse.map (fun k => (k, v))).take c) := by
  induction keys using List.reverseRecOn with
  | nil => simp
  | append_singleton l x ih =>
      have hnd1 : l.Nodup := (List.nodup_append.mp hnd).1
      have hnd2 : x ∉ l := by
        intro hx
        exact (List.nodup_append.mp hnd).2.2 hx (by simp)
      rw [List.foldl_append]
      simp only [List.foldl_cons, List.foldl_nil]
      rw [ih hnd1]
      rw [EvictingIndex.put]
      have hfil : ((l.reverse.map (fun k => (k, v))).take c).filter
          (fun p => decide (p.1 ≠ x)) = (l.reverse.map (fun k => (k, v))).take c := by
        rw [List.filter_eq_self]
        intro p hp
        have hp' := List.mem_of_mem_take hp
        rw [List.mem_map] at hp'
        obtain ⟨k, hk, rfl⟩ := hp'
        have : k ≠ x := fun h => hnd2 (h ▸ (List.mem_reverse.mp hk))
        simpa using this
      simp only []
      rw [hfil, take_cons_take]
      simp [List.reverse_append]

/-- C9: confirmed against the spec-modelled `EvictingIndex` (the implementing
`cachetypes.py` is not among the available sources).  Inserting `N + 1`
distinct keys into a fresh index with maximum capacity `N` leaves exactly `N`
keys, the first-inserted (least recently used, since inserts are the only
accesses) key being the absent one; the eviction happens inside `put`
itself, never as a separate call. -/
theorem c9_evicting_index_lru (N : Nat) (k0 : PyVal) (ks : List PyVal)
    (v : PyVal) (hnd : (k0 :: ks).Nodup) (hlen : ks.length = N) :
    ((k0 :: ks).foldl (fun m k => m.put k v) (EvictingIndex.emptyWithCap N)).size = N
    ∧ k0 ∉ ((k0 :: ks).foldl (fun m k => m.put k v) (EvictingIndex.emptyWithCap N)).keys
    ∧ ∀ k ∈ ks, k ∈ ((k0 :: ks).foldl (fun m k => m.put k v) (EvictingIndex.emptyWithCap N)).keys := by
  have hlen' : (ks.reverse.map (fun k => (k, v))).length = N := by simp [hlen]
  have hent : (k0 :: ks).foldl (fun m k => m.put k v) (EvictingIndex.emptyWithCap N)
      = EvictingIndex.mk (some N) (ks.reverse.map (fun k => (k, v))) := by
    rw [show EvictingIndex.emptyWithCap N = EvictingIndex.mk (some N) [] from rfl]
    rw [evIndex_foldl (k0 :: ks) N v hnd]
    congr 1
    rw [show (k0 :: ks).reverse.map (fun k => (k, v))
        = ks.reverse.map (fun k => (k, v)) ++ [(k0, v)] by simp [List.reverse_cons]]
    rw [← hlen', List.take_left]
  have hk0 : k0 ∉ ks := (List.nodup_cons.mp hnd).1
  have hkeys : (EvictingIndex.mk (some N) (ks.reverse.map (fun k => (k, v)))).keys
      = ks.reverse := by
    rw [EvictingIndex.keys, List.map_map]
    simp [Function.comp_def]
  refine ⟨?_, ?_, ?_⟩
  · rw [hent, EvictingIndex.size, hlen']
  · rw [hent, hkeys, List.mem_reverse]
    exact hk0
  · intro k hk
    rw [hent, hkeys, List.mem_reverse]
    exact hk

/-- C9 witness: capacity 2, three distinct keys inserted; the first is gone,
the later two remain. -/
theorem c9_witness :
    (([vInt 0, vInt 1, vInt 2].foldl (fun m k => m.put k (vInt 9))
        (EvictingIndex.emptyWithCap 2)).size = 2)
    ∧ vInt 0 ∉ ([vInt 0, vInt 1, vInt 2].foldl (fun m k => m.put k (vInt 9))
        (EvictingIndex.emptyWithCap 2)).keys
    ∧ ∀ k ∈ [vInt 1, vInt 2],
        k ∈ ([vInt 0, vInt 1, vInt 2].foldl (fun m k => m.put k (vInt 9))
          (EvictingIndex.emptyWithCap 2)).keys :=
  c9_evicting_index_lru 2 (vInt 0) [vInt 1, vInt 2] (vInt 9) (by decide) rfl

theorem daemon_step_go (s : SDState) : (daemon_step s).go = s.go := by
  rw [daemon_step]
  cases s.phase <;> (repeat' split) <;> rfl

theorem sd_step_go_false (s : SDState) (a : SDAct) (h : s.go = false) :
    (sd_step s a).go = false := by
  cases a with
  | daemonStep => rw [sd_step, daemon_step_go]; exact h
  | stopSignal => rfl

theorem roundsCompleted_le_potential (acts : List SDAct) :
    ∀ s : SDState, s.go = false → roundsCompleted s acts ≤ sdPotential s := by
  induction acts with
  | nil => intro s _; simp [roundsCompleted]
  | cons a rest ih =>
      intro s h
      have hrest := ih (sd_step s a) (sd_step_go_false s a h)
      simp only [roundsCompleted]
      cases a with
      | stopSignal =>
          rw [if_neg (by simp)]
          have heq : sdPotential (sd_step s SDAct.stopSignal) = sdPotential s := rfl
          rw [heq] at hrest
          omega
      | daemonStep =>
          cases hp : s.phase with
          | check =>
              have hs : sd_step s SDAct.daemonStep = { s with phase := Phase.halted } := by
                simp [sd_step, daemon_step, hp, h]
              rw [hs] at hrest ⊢
              have h0 : sdPotential { s with phase := Phase.halted } = 0 := rfl
              have h1 : sdPotential s = 0 := by simp [sdPotential, hp]
              rw [h0] at hrest
              rw [h1, if_neg (by simp)]
              omega
          | exec i =>
              have h1 : sdPotential s = 1 := by simp [sdPotential, hp]
              by_cases hlt : i + 1 < s.nfuncs
              · have hs : sd_step s SDAct.daemonStep
                    = { s with phase := Phase.exec (i + 1) } := by
                  simp [sd_step, daemon_step, hp, hlt]
                rw [hs] at hrest ⊢
                have h0 : sdPotential { s with phase := Phase.exec (i + 1) } = 1 := rfl
                rw [h0] at hrest
                rw [h1, if_neg (by simp)]
                omega
              · have hs : sd_step s SDAct.daemonStep
                    = { s with phase := Phase.sleeping } := by
                  simp [sd_step, daemon_step, hp, hlt]
                rw [hs] at hrest ⊢
                have h0 : sdPotential { s with phase := Phase.sleeping } = 0 := rfl
                rw [h0] at hrest
                rw [h1, if_pos (by simp)]
                omega
          | sleeping =>
              have hs : sd_step s SDAct.daemonStep = { s with phase := Phase.check } := by
                simp [sd_step, daemon_step, hp]
              rw [hs] at hrest ⊢
              have h0 : sdPotential { s with phase := Phase.check } = 0 := rfl
              have h1 : sdPotential s = 0 := by simp [sdPotential, hp]
              rw [h0] at hrest
              rw [h1, if_neg (by simp)]
              omega
          | halted =>
              have hs : sd_step s SDAct.daemonStep = s := by
                simp [sd_step, daemon_step, hp]
              rw [hs] at hrest ⊢
              have h1 : sdPotential s = 0 := by simp [sdPotential, hp]
              rw [h1] at hrest ⊢
              rw [if_neg (by simp [hp])]
              omega

theorem sd_step_halted (s : SDState) (a : SDAct) (h : s.phase = Phase.halted) :
    (sd_step s a).phase = Phase.halted := by
  cases a with
  | daemonStep => rw [sd_step, daemon_step, h]; exact h
  | stopSignal => exact h

/-- C6: confirmed.  Once `stop()` has cleared the `go` flag: (1) along any
further schedule at most one more full round of callbacks completes (the flag
is tested only at the top of the `while` loop, so a round in flight finishes
but no new one starts); (2) once the loop has exited it stays exited; and
(3) shutdown is not immediate — there is a schedule on which a full round
still completes after the flag is already down. -/
theorem c6_daemon_stop_bound :
    (∀ (s : SDState) (acts : List SDAct), s.go = false →
        roundsCompleted s acts ≤ 1)
    ∧ (∀ (s : SDState) (acts : List SDAct), s.phase = Phase.halted →
        (sd_run s acts).phase = Phase.halted)
    ∧ (∃ (s : SDState) (acts : List SDAct), s.go = false
        ∧ roundsCompleted s acts = 1) := by
  refine ⟨?_, ?_, ?_⟩
  · intro s acts h
    have hb := roundsCompleted_le_potential acts s h
    have hpot : sdPotential s ≤ 1 := by
      rw [sdPotential]
      cases s.phase <;> simp
    omega
  · intro s acts h
    induction acts generalizing s with
    | nil => exact h
    | cons a rest ih => exact ih (sd_step s a) (sd_step_halted s a h)
  · exact ⟨⟨false, Phase.exec 0, 1⟩, [SDAct.daemonStep], rfl, by decide⟩

/-- C6 witness: concrete stopped states — no further round completes from the
loop top, and a halted daemon stays halted. -/
theorem c6_witness :
    roundsCompleted ⟨false, Phase.check, 3⟩ [SDAct.daemonStep, SDAct.daemonStep] ≤ 1
    ∧ (sd_run ⟨true, Phase.halted, 2⟩ [SDAct.stopSignal]).phase = Phase.halted :=
  ⟨c6_daemon_stop_bound.1 _ _ rfl, c6_daemon_stop_bound.2.1 _ _ rfl⟩

theorem create_cache_get (st : DataManager) (i : RawColl) (l : Option RawColl)
    (n : Name) :
    (st._create_cache i l n).map (fun st' => alGet st'.data n)
      = (cacheCreated i l).map some := by
  cases i with
  | rSet l0 => simp [DataManager._create_cache, cacheCreated, alGet_alSet_self]
  | rList l0 => simp [DataManager._create_cache, cacheCreated, alGet_alSet_self]
  | rDict d0 =>
      cases l with
      | none => simp [DataManager._create_cache, cacheCreated, alGet_alSet_self]
      | some ld =>
          cases htr : truthyRaw ld with
          | false =>
              simp [DataManager._create_cache, cacheCreated, htr, alGet_alSet_self]
          | true =>
              cases ld with
              | rSet x => simp [DataManager._create_cache, cacheCreated, htr]
              | rList x => simp [DataManager._create_cache, cacheCreated, htr]
              | rDict d1 =>
                  cases hks : d1.all (fun kv => isStrKey kv.1) with
                  | true =>
                      simp [DataManager._create_cache, cacheCreated, htr, hks,
                        alGet_alSet_self]
                  | false =>
                      simp [DataManager._create_cache, cacheCreated, htr, hks]

theorem cacheCreated_some (i src : RawColl) :
    cacheCreated i (some src) = cacheSeedValue i true true src := by
  cases htr : truthyRaw src with
  | true =>
      cases i with
      | rSet l0 => simp [cacheCreated, cacheSeedValue, htr]
      | rList l0 => simp [cacheCreated, cacheSeedValue, htr]
      | rDict d0 =>
          cases src with
          | rSet x => simp [cacheCreated, cacheSeedValue, htr, isStrKeyedDict]
          | rList x => simp [cacheCreated, cacheSeedValue, htr, isStrKeyedDict]
          | rDict d1 =>
              cases hks : d1.all (fun kv => isStrKey kv.1) with
              | true =>
                  simp [cacheCreated, cacheSeedValue, htr, hks, isStrKeyedDict,
                    pairsOf]
              | false =>
                  simp [cacheCreated, cacheSeedValue, htr, hks, isStrKeyedDict]
  | false =>
      cases i <;>
        simp [cacheCreated, cacheSeedValue, htr, truthyRaw_false_elems src htr,
          truthyRaw_false_pairs src htr, _numericize]

theorem cacheSeedValue_noload (i : RawColl) (src : RawColl) :
    cacheSeedValue i true false src = cacheCreated i (some i) := by
  rw [show cacheSeedValue i true false src = cacheSeedValue i true true i from
    by cases i <;> rfl]
  rw [cacheCreated_some]

theorem cacheCreated_none (i : RawColl) (b : Bool) (lo : RawColl) :
    cacheCreated i none = cacheSeedValue i false b lo := by
  cases i <;> rfl

/-- C1 (amended): what seeds the container created by `register_cache`.
With a file path and a successful load, the loaded data seeds it directly —
no merge with `initial_data` — numericized for the set shape and as-is for
the sequence/map shapes; with a path but no load (file absent or
`load=False`), `initial_data` seeds it (numericized for the set shape); with
no path at all the container starts empty, whatever `initial_data` holds.
Map-shaped seeding raises a TypeError — `none` on both sides — whenever the
truthy seed data is not a string-keyed mapping, because
`EvictingIndex(path, **seed)` keyword-expands it. -/
theorem c1_register_cache_seeding (st : DataManager) (name : Name)
    (initial : RawColl) (path_to_file : Option Name)
    (display ld sv : Bool) (skw lkw : Option Kwargs) (app : Bool)
    (fe : Name → Bool) (sl : Name → RawColl) :
    (st.register_cache name initial path_to_file display ld sv skw lkw
        app fe sl).map
        (fun st' => alGet st'.data (if app then name ++ st.session_id else name))
      = (cacheSeedValue initial path_to_file.isSome
          (ld && fe (if app then name ++ st.session_id else name))
          (sl (if app then name ++ st.session_id else name))).map some := by
  rw [DataManager.register_cache.eq_def]
  cases path_to_file with
  | none =>
      simp only []
      rw [create_cache_get]
      exact congrArg (Option.map some) (cacheCreated_none initial _ _)
  | some pp =>
      simp only []
      cases hld : ld && fe (if app then name ++ st.session_id else name) with
      | true =>
          rw [if_pos (show (true : Bool) = true from rfl)]
          rw [create_cache_get]
          exact congrArg (Option.map some) (cacheCreated_some initial _)
      | false =>
          rw [if_neg (show ¬((false : Bool) = true) from by decide)]
          rw [create_cache_get]
          exact congrArg (Option.map some) (cacheSeedValue_noload initial _).symm

/-- C1: the claim fails on the code in the no-path case.  With
`path_to_file=None` and a nonempty initial set `{5}`, the created container
is empty — `initial_data` did not seed it, because `_create_cache` receives
`loaded_data=None` and falls back to `loaded_data or set()`. -/
theorem c1_counterexample :
    ((mkDataManager 0).register_cache ['n'] (RawColl.rSet [vInt 5]) none
        true true true none none false (fun _ => false)
        (fun _ => RawColl.rList [])).map (fun st' => alGet st'.data ['n'])
      = some (some (Value.cacheSet []))
    ∧ truthyRaw (RawColl.rSet [vInt 5]) = true
    ∧ ((mkDataManager 0).register_cache ['n'] (RawColl.rSet [vInt 5]) none
        true true true none none false (fun _ => false)
        (fun _ => RawColl.rList [])).map (fun st' => alGet st'.data ['n'])
      ≠ some (some (Value.cacheSet (setOfList [vInt 5]))) := by
  refine ⟨?_, ?_, ?_⟩ <;> decide

theorem chrVal_digitChr (d : Nat) (h : d < 10) : chrVal (digitChr d) = d := by
  interval_cases d <;> decide

theorem digitsVal_natDigitsRevF (fuel : Nat) :
    ∀ n : Nat, n < 10 ^ fuel → digitsVal (natDigitsRevF fuel n) = n := by
  induction fuel with
  | zero =>
      intro n hn
      interval_cases n
      rfl
  | succ f ih =>
      intro n hn
      by_cases h10 : n < 10
      · rw [natDigitsRevF, if_pos h10]
        rw [digitsVal, digitsVal, chrVal_digitChr n h10]
        omega
      · rw [natDigitsRevF, if_neg h10]
        rw [digitsVal, chrVal_digitChr (n % 10) (Nat.mod_lt n (by omega))]
        rw [ih (n / 10) (by
          rw [pow_succ] at hn
          omega)]
        omega

theorem natToName_inj (a b : Nat) (ha : a < 10 ^ 7) (hb : b < 10 ^ 7)
    (h : natToName a = natToName b) : a = b := by
  have h2 : natDigitsRevF 7 a = natDigitsRevF 7 b := by
    have := congrArg List.reverse h
    simpa [natToName] using this
  have := congrArg digitsVal h2
  rw [digitsVal_natDigitsRevF 7 a ha, digitsVal_natDigitsRevF 7 b hb] at this
  exact this

theorem applyFlags_session (st : DataManager) (n : Name) (d s : Bool)
    (skw lkw : Option Kwargs) :
    (st.applyFlags n d s skw lkw).session_id = st.session_id := by
  cases d <;> cases s <;> cases skw <;> cases lkw <;> rfl

theorem applyFlags_data (st : DataManager) (n : Name) (d s : Bool)
    (skw lkw : Option Kwargs) :
    (st.applyFlags n d s skw lkw).data = st.data := by
  cases d <;> cases s <;> cases skw <;> cases lkw <;> rfl

theorem applyFlags_dnas (st : DataManager) (n : Name) (d s : Bool)
    (skw lkw : Option Kwargs) :
    (st.applyFlags n d s skw lkw).do_not_append_session_id
      = st.do_not_append_session_id := by
  cases d <;> cases s <;> cases skw <;> cases lkw <;> rfl

theorem register_session (st : DataManager) (n : Name) (v : Value)
    (d app : Bool) : (st.register n v d app).session_id = st.session_id := by
  cases app <;> cases d <;> rfl

theorem create_cache_session (st : DataManager) (i : RawColl)
    (l : Option RawColl) (n : Name) :
    (st._create_cache i l n).map (·.session_id)
      = (st._create_cache i l n).map (fun _ => st.session_id) := by
  cases i with
  | rSet l0 => rfl
  | rList l0 => rfl
  | rDict d0 =>
      cases l with
      | none => rfl
      | some ld =>
          cases htr : truthyRaw ld with
          | false => simp [DataManager._create_cache, htr]
          | true =>
              cases ld with
              | rSet x => simp [DataManager._create_cache, htr]
              | rList x => simp [DataManager._create_cache, htr]
              | rDict d1 =>
                  cases hks : d1.all (fun kv => isStrKey kv.1) <;>
                    simp [DataManager._create_cache, htr, hks]

theorem load_session (st : DataManager) (a b : RawColl) (n : Name)
    (st' : DataManager) (h : st.load a b n = some st') :
    st'.session_id = st.session_id := by
  cases a <;> cases b <;>
    (rw [DataManager.load.eq_def] at h
     cases hv : alGet st.data n <;> rw [hv] at h <;>
       first
       | (cases h)
       | (rename_i v; cases v <;> simp at h <;>
           first | (cases h) | (rw [← h]))) <;> rfl

theorem load_session_map (stX : DataManager) (a b : RawColl) (n : Name) :
    (stX.load a b n).map (·.session_id)
      = (stX.load a b n).map (fun _ => stX.session_id) := by
  cases hres : stX.load a b n with
  | none => rfl
  | some st' => simp [load_session stX a b n st' hres]

theorem register_file_session (st : DataManager) (n : Name) (i : RawColl)
    (d l s : Bool) (skw lkw : Option Kwargs) (fe : Name → Bool)
    (sl : Name → RawColl) :
    (st.register_file n i d l s skw lkw fe sl).map (·.session_id)
      = (st.register_file n i d l s skw lkw fe sl).map (fun _ => st.session_id) := by
  rw [DataManager.register_file]
  split
  next h =>
      simp only []
      split
      next h2 =>
          rw [load_session_map]
          simp only [register_session, applyFlags_session]
      next h2 =>
          simp [register_session, applyFlags_session]
  next h =>
      simp [register_session, applyFlags_session]

theorem register_cache_session (st : DataManager) (n : Name) (i : RawColl)
    (p : Option Name) (d l s : Bool) (skw lkw : Option Kwargs) (app : Bool)
    (fe : Name → Bool) (sl : Name → RawColl) :
    (st.register_cache n i p d l s skw lkw app fe sl).map (·.session_id)
      = (st.register_cache n i p d l s skw lkw app fe sl).map
          (fun _ => st.session_id) := by
  rw [DataManager.register_cache.eq_def]
  cases p with
  | none =>
      simp only []
      rw [create_cache_session]
      simp only [applyFlags_session]
      cases app <;> rfl
  | some pp =>
      simp only []
      cases hld : l && fe (if app then n ++ st.session_id else n) with
      | true =>
          rw [if_pos (show (true : Bool) = true from rfl)]
          rw [create_cache_session]
          simp only [applyFlags_session]
          cases app <;> rfl
      | false =>
          rw [if_neg (show ¬((false : Bool) = true) from by decide)]
          rw [create_cache_session]
          simp only [applyFlags_session]
          cases app <;> rfl

/-- C7: confirmed.  The session id of a manager is `str(r)` for a draw `r`
from the inclusive range 100000..999999 — exactly 900000 distinct rendered
values — and none of the state-returning operations (`register`,
`register_cache`, `register_file`, `clean`) ever changes it (`get`, `save`
and `save_caches` do not produce a manager state at all; `register_cache`
and `register_file` can raise, so their conjuncts are phrased on the
returned state when there is one). -/
theorem c7_session_identity :
    ((Finset.Icc 100000 999999).image natToName).card = 900000
    ∧ (∀ seed : Nat, (mkDataManager seed).session_id
        ∈ (Finset.Icc 100000 999999).image natToName)
    ∧ (∀ (st : DataManager) (n : Name) (v : Value) (d app : Bool),
        (st.register n v d app).session_id = st.session_id)
    ∧ (∀ (st : DataManager) (n : Name) (i : RawColl) (p : Option Name)
        (d l s : Bool) (skw lkw : Option Kwargs) (app : Bool)
        (fe : Name → Bool) (sl : Name → RawColl),
        (st.register_cache n i p d l s skw lkw app fe sl).map (·.session_id)
          = (st.register_cache n i p d l s skw lkw app fe sl).map
              (fun _ => st.session_id))
    ∧ (∀ (st : DataManager) (n : Name) (i : RawColl) (d l s : Bool)
        (skw lkw : Option Kwargs) (fe : Name → Bool) (sl : Name → RawColl),
        (st.register_file n i d l s skw lkw fe sl).map (·.session_id)
          = (st.register_file n i d l s skw lkw fe sl).map (fun _ => st.session_id))
    ∧ (∀ st : DataManager, st.clean.session_id = st.session_id) := by
  refine ⟨?_, ?_, register_session, register_cache_session,
    register_file_session, fun st => rfl⟩
  · have hinj : Set.InjOn natToName (Finset.Icc 100000 999999) := by
      intro a ha b hb h
      rw [Finset.coe_Icc, Set.mem_Icc] at ha hb
      have h7 : (10 : Nat) ^ 7 = 10000000 := by norm_num
      exact natToName_inj a b (by omega) (by omega) h
    rw [Finset.card_image_of_injOn hinj, Nat.card_Icc]
  · intro seed
    refine Finset.mem_image.mpr ⟨100000 + seed % 900000, ?_, rfl⟩
    have hm : seed % 900000 < 900000 := Nat.mod_lt _ (by norm_num)
    rw [Finset.mem_Icc]
    omega

theorem leadsWith_append (pat X : List Char) : leadsWith pat (pat ++ X) = true := by
  induction pat with
  | nil => rfl
  | cons a as ih => simp [leadsWith, ih]

theorem leadsWith_nil_iff (pat : List Char) : leadsWith pat [] = true ↔ pat = [] := by
  cases pat <;> simp [leadsWith]

theorem leadsWith_length (pat : List Char) :
    ∀ s, leadsWith pat s = true → pat.length ≤ s.length := by
  induction pat with
  | nil => intro s _; simp
  | cons a as ih =>
      intro s h
      cases s with
      | nil => exact absurd h (by simp [leadsWith])
      | cons b bs =>
          rw [leadsWith, Bool.and_eq_true] at h
          have := ih bs h.2
          simp only [List.length_cons]
          omega

theorem leadsWith_take (pat : List Char) :
    ∀ (s : List Char) (k : Nat), leadsWith pat s = true → pat.length ≤ k →
      leadsWith pat (s.take k) = true := by
  induction pat with
  | nil => intro s k _ _; rfl
  | cons a as ih =>
      intro s k h hk
      cases s with
      | nil => exact absurd h (by simp [leadsWith])
      | cons b bs =>
          rw [leadsWith, Bool.and_eq_true] at h
          cases k with
          | zero => simp at hk
          | succ k' =>
              rw [List.take_succ_cons, leadsWith, Bool.and_eq_true]
              refine ⟨h.1, ih bs k' h.2 ?_⟩
              simp only [List.length_cons] at hk
              omega

theorem leadsWith_mono_append (pat : List Char) :
    ∀ (s Y : List Char), leadsWith pat s = true → leadsWith pat (s ++ Y) = true := by
  induction pat with
  | nil => intro s Y _; rfl
  | cons a as ih =>
      intro s Y h
      cases s with
      | nil => exact absurd h (by simp [leadsWith])
      | cons b bs =>
          rw [leadsWith, Bool.and_eq_true] at h
          rw [List.cons_append, leadsWith, Bool.and_eq_true]
          exact ⟨h.1, ih bs Y h.2⟩

theorem containsSub_length (s pat : List Char) (h : containsSub s pat = true) :
    pat.length ≤ s.length := by
  induction s with
  | nil =>
      rw [containsSub, leadsWith_nil_iff] at h
      simp [h]
  | cons c t ih =>
      rw [containsSub, Bool.or_eq_true] at h
      rcases h with h | h
      · exact leadsWith_length pat (c :: t) h
      · have := ih h
        simp only [List.length_cons]
        omega

theorem dropLast_cons_ne (a : Char) (l : List Char) (h : l ≠ []) :
    (a :: l).dropLast = a :: l.dropLast := by
  cases l with
  | nil => exact absurd rfl h
  | cons x xs => rfl

theorem replaceGoF_nil (pat : List Char) (fuel : Nat) :
    replaceGoF pat fuel [] = [] := by
  cases fuel <;> rfl

theorem replaceGoF_self (pat : List Char) (hp : pat ≠ []) :
    ∀ fuel, 1 ≤ fuel → replaceGoF pat fuel pat = [] := by
  cases pat with
  | nil => exact absurd rfl hp
  | cons p ps =>
      intro fuel hf
      cases fuel with
      | zero => omega
      | succ f =>
          rw [replaceGoF, if_pos (by
            have := leadsWith_append (p :: ps) []
            simpa using this)]
          simp only [List.length_cons, Nat.add_sub_cancel, List.drop_length]
          exact replaceGoF_nil (p :: ps) f

theorem replaceGoF_strip (pat : List Char) (hp : pat ≠ []) :
    ∀ (n : List Char) (fuel : Nat), (n ++ pat).length ≤ fuel →
      containsSub ((n ++ pat).dropLast) pat = false →
      replaceGoF pat fuel (n ++ pat) = n := by
  intro n
  induction n with
  | nil =>
      intro fuel hf _
      rw [List.nil_append] at hf ⊢
      refine replaceGoF_self pat hp fuel ?_
      have : 1 ≤ pat.length := by
        cases pat
        · exact absurd rfl hp
        · simp
      omega
  | cons c t ih =>
      intro fuel hf hocc
      rw [List.cons_append] at hf hocc ⊢
      have htp : t ++ pat ≠ [] := by
        intro h
        have : pat = [] := by
          cases t
          · simpa using h
          · simp at h
        exact hp this
      rw [dropLast_cons_ne c (t ++ pat) htp, containsSub, Bool.or_eq_false_iff] at hocc
      have hlw : leadsWith pat (c :: (t ++ pat)) = false := by
        by_contra hcon
        rw [Bool.not_eq_false] at hcon
        have hk : pat.length ≤ (c :: (t ++ pat)).length - 1 := by
          have := leadsWith_length pat (c :: (t ++ pat)) hcon
          have h1 : 1 ≤ pat.length := by
            cases pat
            · exact absurd rfl hp
            · simp
          simp only [List.length_cons, List.length_append] at *
          omega
        have := leadsWith_take pat (c :: (t ++ pat)) ((c :: (t ++ pat)).length - 1)
          hcon hk
        rw [← List.dropLast_eq_take, dropLast_cons_ne c (t ++ pat) htp] at this
        rw [this] at hocc
        exact absurd hocc.1 (by simp)
      cases fuel with
      | zero => simp at hf
      | succ f =>
          rw [replaceGoF, if_neg (by rw [hlw]; simp)]
          congr 1
          refine ih f ?_ hocc.2
          simp only [List.length_cons] at hf
          omega

theorem replaceGoF_length_le (pat : List Char) :
    ∀ (fuel : Nat) (s : List Char), (replaceGoF pat fuel s).length ≤ s.length := by
  intro fuel
  induction fuel with
  | zero => intro s; cases s <;> simp [replaceGoF]
  | succ f ih =>
      intro s
      cases s with
      | nil => simp [replaceGoF]
      | cons c t =>
          rw [replaceGoF]
          by_cases hlw : leadsWith pat (c :: t)
          · rw [if_pos hlw]
            have h1 := ih (t.drop (pat.length - 1))
            have h2 : (t.drop (pat.length - 1)).length ≤ t.length := by
              rw [List.length_drop]; omega
            simp only [List.length_cons]
            omega
          · rw [if_neg hlw]
            have := ih t
            simp only [List.length_cons]
            omega

theorem pat_length_pos (pat : List Char) (hp : pat ≠ []) : 1 ≤ pat.length := by
  cases pat
  · exact absurd rfl hp
  · simp

theorem replaceGoF_append_le (pat : List Char) (hp : pat ≠ []) :
    ∀ (B : Nat) (X : List Char) (fuel : Nat), X.length ≤ B →
      (X ++ pat).length ≤ fuel →
      (replaceGoF pat fuel (X ++ pat)).length ≤ X.length := by
  intro B
  induction B with
  | zero =>
      intro X fuel hB hf
      have hX : X = [] := List.length_eq_zero.mp (by omega)
      subst hX
      rw [List.nil_append] at hf ⊢
      rw [replaceGoF_self pat hp fuel (by
        have := pat_length_pos pat hp; omega)]
  | succ B ih =>
      intro X fuel hB hf
      cases X with
      | nil =>
          rw [List.nil_append] at hf ⊢
          rw [replaceGoF_self pat hp fuel (by
            have := pat_length_pos pat hp; omega)]
      | cons c t =>
          have hm := pat_length_pos pat hp
          rw [List.cons_append] at hf ⊢
          cases fuel with
          | zero => simp at hf
          | succ f =>
              rw [replaceGoF]
              by_cases hlw : leadsWith pat (c :: (t ++ pat))
              · rw [if_pos hlw]
                by_cases hsplit : pat.length - 1 ≤ t.length
                · rw [List.drop_append_of_le_length hsplit]
                  have hrec := ih (t.drop (pat.length - 1)) f
                    (by rw [List.length_drop]; simp only [List.length_cons] at hB; omega)
                    (by
                      rw [List.length_append, List.length_drop]
                      simp only [List.length_cons, List.length_append] at hf
                      omega)
                  rw [List.length_drop] at hrec
                  simp only [List.length_cons]
                  omega
                · rw [List.drop_append_eq_append_drop]
                  rw [List.drop_of_length_le (by omega)]
                  rw [List.nil_append]
                  have h1 := replaceGoF_length_le pat f (pat.drop (pat.length - 1 - t.length))
                  rw [List.length_drop] at h1
                  simp only [List.length_cons]
                  omega
              · rw [if_neg hlw]
                have hrec := ih t f (by simp only [List.length_cons] at hB; omega)
                  (by simp only [List.length_cons] at hf; rw [List.length_append]
                      simp only [List.length_append] at hf; omega)
                simp only [List.length_cons]
                omega

theorem replaceGoF_contains_le (pat : List Char) (hp : pat ≠ []) :
    ∀ (B : Nat) (X : List Char) (fuel : Nat), X.length ≤ B →
      containsSub X pat = true → (X ++ pat).length ≤ fuel →
      (replaceGoF pat fuel (X ++ pat)).length ≤ X.length - pat.length := by
  intro B
  induction B with
  | zero =>
      intro X fuel hB hc hf
      have hX : X = [] := List.length_eq_zero.mp (by omega)
      subst hX
      rw [containsSub, leadsWith_nil_iff] at hc
      exact absurd hc hp
  | succ B ih =>
      intro X fuel hB hc hf
      cases X with
      | nil =>
          rw [containsSub, leadsWith_nil_iff] at hc
          exact absurd hc hp
      | cons c t =>
          have hm := pat_length_pos pat hp
          have hmlen : pat.length ≤ t.length + 1 := by
            have := containsSub_length (c :: t) pat hc
            simpa using this
          rw [List.cons_append] at hf ⊢
          cases fuel with
          | zero => simp at hf
          | succ f =>
              rw [replaceGoF]
              by_cases hlw : leadsWith pat (c :: (t ++ pat))
              · rw [if_pos hlw]
                have hsplit : pat.length - 1 ≤ t.length := by omega
                rw [List.drop_append_of_le_length hsplit]
                have hrec := replaceGoF_append_le pat hp (t.drop (pat.length - 1)).length
                  (t.drop (pat.length - 1)) f le_rfl
                  (by
                    rw [List.length_append, List.length_drop]
                    simp only [List.length_cons, List.length_append] at hf
                    omega)
                rw [List.length_drop] at hrec
                simp only [List.length_cons]
                omega
              · rw [if_neg hlw]
                have hlw2 : leadsWith pat (c :: t) = false := by
                  by_contra hcon
                  rw [Bool.not_eq_false] at hcon
                  have := leadsWith_mono_append pat (c :: t) pat hcon
                  rw [List.cons_append] at this
                  exact hlw this
                rw [containsSub, hlw2, Bool.false_or] at hc
                have hmt : pat.length ≤ t.length := containsSub_length t pat hc
                have hrec := ih t f (by simp only [List.length_cons] at hB; omega) hc
                  (by
                    rw [List.length_append]
                    simp only [List.length_cons, List.length_append] at hf
                    omega)
                simp only [List.length_cons]
                omega

theorem replaceAll_append_self (n pat : List Char) (hp : pat ≠ [])
    (hocc : containsSub ((n ++ pat).dropLast) pat = false) :
    replaceAll (n ++ pat) pat = n := by
  rw [replaceAll, if_neg hp]
  exact replaceGoF_strip pat hp n (n ++ pat).length le_rfl hocc

theorem replaceAll_contains_short (n pat : List Char) (hp : pat ≠ [])
    (hocc : containsSub n pat = true) :
    (replaceAll (n ++ pat) pat).length ≤ n.length - pat.length := by
  rw [replaceAll, if_neg hp]
  exact replaceGoF_contains_le pat hp n.length n (n ++ pat).length le_rfl hocc le_rfl

theorem register_false_data (st : DataManager) (n : Name) (v : Value) (d : Bool) :
    (st.register n v d false).data = alSet st.data n v := by
  cases d <;> rfl

theorem register_false_dnas (st : DataManager) (n : Name) (v : Value) (d : Bool) :
    (st.register n v d false).do_not_append_session_id
      = st.do_not_append_session_id ++ [n ++ st.session_id] := by
  cases d <;> rfl

theorem natToName_ne_nil (x : Nat) : natToName x ≠ [] := by
  rw [natToName, natDigitsRevF]
  split <;> simp

/-- C5: the claim fails on the code when the bare name itself contains the
session id.  With session id "100000" and an entry registered unsuffixed
under "x100000", `get` builds "x100000100000", strips *every* occurrence of
the session id (leaving "x"), misses the stored key and falls back to the
default — even though the entry is stored under the bare name. -/
theorem c5_counterexample :
    ((mkDataManager 0).register ("x100000".toList) (Value.pyList [vInt 7])
        true false).get ("x100000".toList) none = none
    ∧ alGet ((mkDataManager 0).register ("x100000".toList) (Value.pyList [vInt 7])
        true false).data ("x100000".toList) = some (Value.pyList [vInt 7]) := by
  constructor <;> decide

/-- C5 (amended): an entry registered unsuffixed under a bare name `n` is
returned by `get n` — for every session id whose only occurrence inside
`n + sessionId` is the trailing suffix (in particular whenever the name does
not contain the session-id digits); when the id occurs elsewhere the
replace-everywhere normalization destroys the key (see C10). -/
theorem c5_unsuffixed_get (st : DataManager) (n : Name) (v : Value) (d : Bool)
    (opt : Option Value) (hsid : st.session_id ≠ [])
    (hocc : containsSub ((n ++ st.session_id).dropLast) st.session_id = false) :
    (st.register n v d false).get n opt = some v := by
  rw [DataManager.get]
  simp only [register_session, register_false_dnas, register_false_data]
  rw [if_pos (by simp : n ++ st.session_id
    ∈ st.do_not_append_session_id ++ [n ++ st.session_id])]
  rw [replaceAll_append_self n st.session_id hsid hocc]
  rw [alGet_alSet_self]

/-- C5 witness: a fresh manager (session id "100000"), a clean bare name. -/
theorem c5_witness :
    ((mkDataManager 0).register ("foo".toList) (Value.pyList []) true false).get
      ("foo".toList) none = some (Value.pyList []) :=
  c5_unsuffixed_get (mkDataManager 0) ("foo".toList) (Value.pyList []) true none
    (by decide) (by decide)

/-- C10: confirmed.  `get` strips every occurrence of the session id from
`name + sessionId` (Python `str.replace` replaces all occurrences), so when
the bare name of an unsuffixed entry contains the session-id digits, the
normalized key is strictly shorter than the name, the lookup misses the
stored entry, and the default is returned. -/
theorem c10_get_strips_all_occurrences (seed : Nat) (n : Name) (v : Value)
    (d : Bool) (opt : Option Value)
    (hocc : containsSub n (mkDataManager seed).session_id = true) :
    ((mkDataManager seed).register n v d false).get n opt = opt := by
  have hsid : (mkDataManager seed).session_id ≠ [] := natToName_ne_nil _
  have hm1 := pat_length_pos _ hsid
  have hmn := containsSub_length n _ hocc
  have hshort := replaceAll_contains_short n (mkDataManager seed).session_id hsid hocc
  have hne : replaceAll (n ++ (mkDataManager seed).session_id)
      (mkDataManager seed).session_id ≠ n := by
    intro h
    rw [h] at hshort
    omega
  rw [DataManager.get]
  simp only [register_session, register_false_dnas, register_false_data]
  rw [if_pos (by simp : n ++ (mkDataManager seed).session_id
    ∈ (mkDataManager seed).do_not_append_session_id
      ++ [n ++ (mkDataManager seed).session_id])]
  have hdata : alSet (mkDataManager seed).data n v = [(n, v)] := rfl
  rw [hdata]
  rw [show alGet [(n, v)] (replaceAll (n ++ (mkDataManager seed).session_id)
      (mkDataManager seed).session_id) = none from by
    rw [alGet, if_neg (fun h => hne h.symm)]
    rfl]

/-- C10 witness: name "x100000" with session id "100000" — `get` returns the
default (here `none`) although the entry exists. -/
theorem c10_witness :
    ((mkDataManager 0).register ("x100000".toList) (Value.pyList [vInt 7])
        true false).get ("x100000".toList) (some (Value.pyList [vInt 0]))
      = some (Value.pyList [vInt 0]) :=
  c10_get_strips_all_occurrences 0 ("x100000".toList) (Value.pyList [vInt 7])
    true (some (Value.pyList [vInt 0])) (by decide)

theorem load_after (stX : DataManager) (n : Name) (i loaded : RawColl)
    (hst : alGet stX.data n = some (toValue i)) :
    (stX.load i loaded n).map (fun st' => alGet st'.data n)
      = (reconcileSpec i loaded).map some := by
  cases i <;> cases loaded <;>
    simp [DataManager.load, hst, reconcileSpec, toValue, isDict, elemsOf,
      pairsOf, alGet_alSet_self]

theorem register_file_merge (st : DataManager) (n : Name) (i : RawColl)
    (d s : Bool) (skw lkw : Option Kwargs) (sl : Name → RawColl) :
    (st.register_file n i d true s skw lkw (fun _ => true) sl).map
        (fun st' => alGet st'.data n)
      = (mergedEntrySpec i (sl n)).map some := by
  rw [DataManager.register_file]
  split
  next h =>
      simp only []
      split
      next ht =>
          rw [mergedEntrySpec, if_pos ht]
          exact load_after _ n i (sl n)
            (by rw [register_false_data, alGet_alSet_self])
      next ht =>
          rw [mergedEntrySpec, if_neg ht]
          simp [register_false_data, alGet_alSet_self]
  next h => exact absurd rfl h

/-- C4 (amended): reconciliation for `register_file` loads.  (1) When the file
exists and yields truthy loaded data, the registered entry becomes: loaded
data numericized elementwise when it is not a mapping (mapping data is not
numericized), then set entries union-merge it, sequence entries append it,
and mapping entries update key-by-key with loaded keys overriding (a mapping
entry fed non-mapping loaded data raises, modelled as `none`); falsy loaded
data leaves the initial value untouched.  (2) Numericization erases every
integer-parseable string among the (non-mapping) loaded elements, so the
merged set/sequence entry contains none — and thus `"1"` and `1` cannot
coexist — provided the caller-supplied initial value contained none (the
initial value is never numericized, which is what the counterexample
exploits). -/
theorem c4_reconciliation :
    (∀ (st : DataManager) (n : Name) (i : RawColl) (d s : Bool)
        (skw lkw : Option Kwargs) (sl : Name → RawColl),
        (st.register_file n i d true s skw lkw (fun _ => true) sl).map
            (fun st' => alGet st'.data n)
          = (mergedEntrySpec i (sl n)).map some)
    ∧ (∀ (st st' : DataManager) (n : Name) (i : RawColl) (d s : Bool)
        (skw lkw : Option Kwargs) (sl : Name → RawColl),
        st.register_file n i d true s skw lkw (fun _ => true) sl = some st' →
        isDict (sl n) = false →
        (∀ x ∈ elemsOf i, isIntStr x = false) →
        ∀ v', alGet st'.data n = some v' →
          ∀ s', vStr s' ∈ elemsOfValue v' → isIntStr (vStr s') = false) := by
  refine ⟨register_file_merge, ?_⟩
  intro st st' n i d s skw lkw sl hreg hnd hclean v' hv' s' hmem
  have hA := register_file_merge st n i d s skw lkw sl
  rw [hreg] at hA
  simp only [Option.map_some'] at hA
  rw [hv'] at hA
  have hspec : mergedEntrySpec i (sl n) = some v' := by
    cases hms : mergedEntrySpec i (sl n) with
    | none => rw [hms] at hA; exact absurd hA (by simp)
    | some w =>
        rw [hms] at hA
        simp only [Option.map_some', Option.some.injEq] at hA
        rw [hA]
  rw [mergedEntrySpec] at hspec
  by_cases htr : truthyRaw (sl n) = true
  · rw [if_pos htr, reconcileSpec.eq_def] at hspec
    cases i with
    | rSet l =>
        simp only [] at hspec
        rw [Option.some.injEq] at hspec
        subst hspec
        rw [hnd] at hmem
        simp only [elemsOfValue, Bool.false_eq_true, if_false] at hmem
        rw [setUpdate_mem, setOfList_mem] at hmem
        rcases hmem with hmem | hmem
        · exact hclean _ hmem
        · exact numericize_not_intStr _ _ hmem
    | rList l =>
        simp only [] at hspec
        rw [Option.some.injEq] at hspec
        subst hspec
        rw [hnd] at hmem
        simp only [elemsOfValue, Bool.false_eq_true, if_false,
          List.mem_append] at hmem
        rcases hmem with hmem | hmem
        · exact hclean _ hmem
        · exact numericize_not_intStr _ _ hmem
    | rDict dd =>
        simp only [] at hspec
        rw [hnd] at hspec
        simp at hspec
  · rw [if_neg htr] at hspec
    rw [Option.some.injEq] at hspec
    subst hspec
    cases i with
    | rSet l =>
        simp only [toValue, elemsOfValue] at hmem
        rw [setOfList_mem] at hmem
        exact hclean _ hmem
    | rList l =>
        simp only [toValue, elemsOfValue] at hmem
        exact hclean _ hmem
    | rDict dd => simp [toValue, elemsOfValue] at hmem

/-- C4: the claim fails on the code in its "never coexist" corollary: only
*loaded* data is numericized, never the initial value.  An initial set
`{"1"}` merged with the loaded sequence `[1]` keeps both the string `"1"`
and the integer `1` as distinct members. -/
theorem c4_counterexample :
    ((mkDataManager 0).register_file ("s".toList) (RawColl.rSet [vStr "1"])
        true true true none none (fun _ => true)
        (fun _ => RawColl.rList [vInt 1])).map
        (fun st' => alGet st'.data ("s".toList))
      = some (some (Value.pySet [vStr "1", vInt 1]))
    ∧ vStr "1" ≠ vInt 1 := by
  constructor <;> decide

/-- C4 witness: a merge of a clean initial set with loaded data, and the
no-integer-string guarantee checked on a surviving loaded element. -/
theorem c4_witness :
    (((mkDataManager 0).register_file ("t".toList) (RawColl.rSet [vStr "a"])
        true true true none none (fun _ => true)
        (fun _ => RawColl.rList [vStr "x"])).map
        (fun st' => alGet st'.data ("t".toList))
      = (mergedEntrySpec (RawColl.rSet [vStr "a"])
          (RawColl.rList [vStr "x"])).map some)
    ∧ isIntStr (vStr "x") = false :=
  ⟨c4_reconciliation.1 (mkDataManager 0) ("t".toList) (RawColl.rSet [vStr "a"])
      true true none none (fun _ => RawColl.rList [vStr "x"]),
   c4_reconciliation.2 (mkDataManager 0)
      (((mkDataManager 0).register_file ("t".toList) (RawColl.rSet [vStr "a"])
          true true true none none (fun _ => true)
          (fun _ => RawColl.rList [vStr "x"])).getD (mkDataManager 0))
      ("t".toList) (RawColl.rSet [vStr "a"]) true true none none
      (fun _ => RawColl.rList [vStr "x"]) (by decide) (by decide) (by decide)
      (Value.pySet [vStr "a", vStr "x"]) (by decide) "x" (by decide)⟩
